import Mathlib

/-!
Formal model of the Vibecoding accounting scripts.

This file gives a shallow embedding of the data model and of the loading,
filtering and aggregation logic of the three Python sources
(`analyze_expenses.py`, `dashboard.py`, `visualize_expenses.py`), and settles
the properties stated for them in the design document.

Modelling conventions:

* monetary amounts are exact rationals (`ℚ`); pandas' float arithmetic is
  modelled as exact arithmetic, which is also what the design document
  prescribes ("decimal-safe accumulation");
* a pandas `DataFrame` of typed ledger rows is a `List Record`;
* `groupby(key)` with its default `sort=True` produces the distinct keys in
  ascending order (`uniqueKeysSorted`);
* `sort_values(..., ascending=False)` is modelled by pandas' `nargsort`
  semantics: a stable ascending argsort followed by a wholesale reversal
  (`sortValuesDesc`); numpy's default sort kind falls back to a stable
  insertion sort below 16 elements, and a ledger's category/month index is
  that small, so ascending argsort order on ties is original row order;
* `nlargest(n, col)` with its default `keep='first'` selects the candidate
  positions and orders them with a stable mergesort, so larger values come
  first and ties stay in original row order (`topNIdx`);
* `DataFrame.round(2)` is numpy's half-to-even rounding at two decimal
  places (`round2`).
-/

/-- A calendar date as carried by a pandas `Timestamp`: year, month, day. -/
structure YMD where
  y : Nat
  m : Nat
  d : Nat
deriving DecidableEq

/-- One cell of a raw spreadsheet as delivered by `pd.read_excel`: a
date-typed cell, a numeric cell, or a text cell. -/
inductive Cell where
  | date (d : YMD)
  | num (q : ℚ)
  | str (s : String)
deriving DecidableEq

/-- Decimal digits of `n` (most significant first), with an explicit fuel
argument so that the kernel can evaluate it; any `fuel ≥ n` gives the same
answer. -/
def natDecimalAux : Nat → Nat → List Char
  | 0, _ => []
  | _ + 1, 0 => []
  | fuel + 1, n + 1 =>
    natDecimalAux fuel ((n + 1) / 10) ++ [Nat.digitChar ((n + 1) % 10)]

/-- `str(n)` for a natural number: its decimal representation. -/
def natDecimal (n : Nat) : String :=
  if n = 0 then "0" else ⟨natDecimalAux n n⟩

/-- The numeric value of a decimal digit string (proof-side inverse of
`natDecimal`). -/
def decimalVal (l : List Char) : ℕ :=
  l.foldl (fun a c => a * 10 + (c.toNat - 48)) 0

/-- `f"{m:02d}"`: the two-digit zero-padded month used inside the string
form of a pandas monthly `Period`. -/
def pad2 (m : Nat) : String :=
  if m < 10 then "0" ++ natDecimal m else natDecimal m

/-- The year-month key `"YYYY-MM"`, i.e. `str(date.to_period('M'))`. (Pandas
zero-pads the year to four digits; within the representable `Timestamp`
years, 1677 to 2262, that agrees with the plain decimal form used here.) -/
def ymKey (y m : Nat) : String :=
  natDecimal y ++ "-" ++ pad2 m

/-- Split a character list at every `'-'`, the list-level core of
`"...".split('-')`. -/
def splitDash : List Char → List (List Char)
  | [] => [[]]
  | c :: rest =>
    if c = '-' then [] :: splitDash rest
    else
      match splitDash rest with
      | [] => [[c]]
      | g :: gs => (c :: g) :: gs

/-- Read a non-empty, all-digit character list as a natural number. -/
def parseNatAscii (l : List Char) : Option Nat :=
  if l ≠ [] ∧ l.all Char.isDigit then
    some (l.foldl (fun a c => a * 10 + (c.toNat - 48)) 0)
  else none

/-- Parse an ISO `"YYYY-MM-DD"` date string with calendar sanity bounds.
`pd.to_datetime` accepts further textual formats and restricts years to the
`Timestamp` range (1677 to 2262); the ledger fixtures of this development
only use ISO strings, and we only require a positive year, which subsumes
the representable range. -/
def parseYMD (s : String) : Option YMD :=
  match splitDash s.data with
  | [ys, ms, ds] =>
    match parseNatAscii ys, parseNatAscii ms, parseNatAscii ds with
    | some y, some m, some d =>
      if 1 ≤ y ∧ 1 ≤ m ∧ m ≤ 12 ∧ 1 ≤ d ∧ d ≤ 31 then some ⟨y, m, d⟩
      else none
    | _, _, _ => none
  | _ => none

/-- `pd.to_datetime` on one cell: date-typed cells pass through, text cells
are parsed, anything else fails. (Pandas would read a numeric cell as an
epoch offset; no date column in this development is numeric.) -/
def pdToDatetime : Cell → Option YMD
  | .date d =>
    if 1 ≤ d.y ∧ 1 ≤ d.m ∧ d.m ≤ 12 ∧ 1 ≤ d.d ∧ d.d ≤ 31 then some d else none
  | .str s => parseYMD s
  | .num _ => none

/-- Convert a whole column, failing if any cell fails: the semantics of
`pd.to_datetime` applied to a column, where one bad value raises. -/
def mapMOpt {α β : Type} (f : α → Option β) : List α → Option (List β)
  | [] => some []
  | a :: l =>
    match f a, mapMOpt f l with
    | some b, some bs => some (b :: bs)
    | _, _ => none

/-- A raw spreadsheet as read by `pd.read_excel`: named columns and rows of
cells (cell `i` of a row belongs to column `i`). -/
structure RawTable where
  columns : List String
  rows : List (List Cell)

/-- The four required column labels checked by `load_data`
(`日期`, `項目`, `金額`, `類別`: date, item, amount, category). -/
def requiredColumns : List String := ["日期", "項目", "金額", "類別"]

/-- Look a cell up by column name within one row. -/
def getCol (t : RawTable) (name : String) (row : List Cell) : Cell :=
  (row.get? (t.columns.indexOf name)).getD (.str "")

/-- One row of the dataframe produced by `load_data`: the converted date,
the untouched `項目`/`金額`/`類別` cells (`load_data` neither validates nor
converts them), and the derived columns `年月`, `月份`, `年份`. -/
structure LoadedRow where
  date : YMD
  item : Cell
  amount : Cell
  category : Cell
  yearMonth : String
  month : Nat
  year : Nat
deriving DecidableEq

/-- The two failure modes of `load_data`, identified by the message it
displays before returning `None`: the missing-required-columns message, and
the generic reading-failure message that any exception (in particular a date
conversion error) produces. -/
inductive LoadError where
  | missingColumns
  | readFailure
deriving DecidableEq

/-- Convert one raw row; fails iff its `日期` cell does not convert. -/
def parseRow (t : RawTable) (row : List Cell) : Option LoadedRow :=
  match pdToDatetime (getCol t "日期" row) with
  | none => none
  | some d =>
    some { date := d, item := getCol t "項目" row, amount := getCol t "金額" row,
           category := getCol t "類別" row, yearMonth := ymKey d.y d.m,
           month := d.m, year := d.y }

/-- `load_data` from `dashboard.py`: check that the four required columns
are present, convert the `日期` column, derive `年月`/`月份`/`年份`; on any
failure display an error message and return `None` (modelled as the
corresponding `LoadError`). -/
def load_data (t : RawTable) : Except LoadError (List LoadedRow) :=
  if requiredColumns.all (fun c => t.columns.contains c) then
    match mapMOpt (parseRow t) t.rows with
    | some rs => .ok rs
    | none => .error .readFailure
  else .error .missingColumns

/-- One ledger row of a well-typed dataframe, as consumed by the aggregation
functions: the four source columns plus the derived `年月` key. -/
structure Record where
  date : YMD
  item : String
  amount : ℚ
  category : String
  yearMonth : String
deriving DecidableEq

/-- Lexicographic comparison of character lists by code point, the order
Python uses on strings. -/
def charListLe : List Char → List Char → Bool
  | [], _ => true
  | _ :: _, [] => false
  | a :: as, b :: bs =>
    if a.toNat < b.toNat then true
    else if b.toNat < a.toNat then false
    else charListLe as bs

/-- Strict lexicographic comparison of character lists by code point. -/
def charListLt : List Char → List Char → Bool
  | [], [] => false
  | [], _ :: _ => true
  | _ :: _, [] => false
  | a :: as, b :: bs =>
    if a.toNat < b.toNat then true
    else if b.toNat < a.toNat then false
    else charListLt as bs

/-- Python's `<=` on strings. -/
def strLe (a b : String) : Bool := charListLe a.data b.data

/-- Python's `<` on strings. -/
def strLt (a b : String) : Bool := charListLt a.data b.data

/-- `strLe` as a relation, for use with sorting. -/
def strLeP (a b : String) : Prop := strLe a b = true

instance : DecidableRel strLeP := fun a b => by
  unfold strLeP; infer_instance

/-- Remove duplicate keys (`pandas` index construction; the retained
occurrence is irrelevant because the keys are sorted afterwards). -/
def dedupKeys : List String → List String
  | [] => []
  | a :: l => if (dedupKeys l).contains a then dedupKeys l else a :: dedupKeys l

/-- The distinct values of a key column in ascending order: the index that a
pandas `groupby(key)` with its default `sort=True` produces. -/
def uniqueKeysSorted (l : List String) : List String :=
  (dedupKeys l).insertionSort strLeP

/-- `df[df['類別'] == c]['金額'].sum()`: the exact total of one category. -/
def catTotal (df : List Record) (c : String) : ℚ :=
  ((df.filter fun r => r.category == c).map Record.amount).sum

/-- The number of records of one category. -/
def catCount (df : List Record) (c : String) : Nat :=
  (df.filter fun r => r.category == c).length

/-- The exact total of one `年月` group. -/
def monthTotal (df : List Record) (m : String) : ℚ :=
  ((df.filter fun r => r.yearMonth == m).map Record.amount).sum

/-- One cell of the month × category pivot: the exact total of one
(`年月`, `類別`) pair, `0` when the pair is absent (`fill_value=0`). -/
def cellTotal (df : List Record) (m c : String) : ℚ :=
  ((df.filter fun r => r.yearMonth == m && r.category == c).map Record.amount).sum

/-- `df.groupby('類別')['金額'].sum()`: ascending category keys with exact
sums. -/
def groupbySumByCategory (df : List Record) : List (String × ℚ) :=
  (uniqueKeysSorted (df.map Record.category)).map fun c => (c, catTotal df c)

/-- `df.groupby('年月')['金額'].sum()`, whose index is already ascending (so
the subsequent `sort_values('年月')` / `sort_index()` are no-ops). -/
def groupbySumByMonth (df : List Record) : List (String × ℚ) :=
  (uniqueKeysSorted (df.map Record.yearMonth)).map fun m => (m, monthTotal df m)

/-- Stable ascending comparison on index-tagged elements: the order computed
by pandas' `nargsort` (ascending by key, ties by original position). -/
def stableAscLe {α : Type} (key : α → ℚ) (a b : Nat × α) : Prop :=
  key a.2 < key b.2 ∨ (key a.2 = key b.2 ∧ a.1 ≤ b.1)

instance {α : Type} (key : α → ℚ) : DecidableRel (stableAscLe key) := fun a b => by
  unfold stableAscLe; infer_instance

instance {α : Type} (key : α → ℚ) : IsTotal (Nat × α) (stableAscLe key) := by
  constructor
  intro a b
  rcases lt_trichotomy (key a.2) (key b.2) with h | h | h
  · exact Or.inl (Or.inl h)
  · rcases Nat.le_total a.1 b.1 with h1 | h1
    · exact Or.inl (Or.inr ⟨h, h1⟩)
    · exact Or.inr (Or.inr ⟨h.symm, h1⟩)
  · exact Or.inr (Or.inl h)

instance {α : Type} (key : α → ℚ) : IsTrans (Nat × α) (stableAscLe key) := by
  constructor
  rintro a b c (hab | ⟨hab, hab'⟩) (hbc | ⟨hbc, hbc'⟩)
  · exact Or.inl (hab.trans hbc)
  · exact Or.inl (hbc ▸ hab)
  · exact Or.inl (hab ▸ hbc)
  · exact Or.inr ⟨hab.trans hbc, hab'.trans hbc'⟩

/-- `sort_values(by=key, ascending=False)`: pandas computes a stable
ascending argsort and reverses it wholesale, so equal keys end up in
reversed original order. -/
def sortValuesDesc {α : Type} (key : α → ℚ) (l : List α) : List α :=
  (((l.enum).insertionSort (stableAscLe key)).map Prod.snd).reverse

/-- The data series behind `create_category_pie_chart` in `dashboard.py`:
exact category sums sorted descending (no rounding anywhere). -/
def create_category_pie_chart (df : List Record) : List (String × ℚ) :=
  sortValuesDesc Prod.snd (groupbySumByCategory df)

/-- Round to the nearest integer, ties to even: numpy's rounding rule. -/
def roundHalfEven (q : ℚ) : ℤ :=
  if q - ⌊q⌋ < 1 / 2 then ⌊q⌋
  else if 1 / 2 < q - ⌊q⌋ then ⌊q⌋ + 1
  else if 2 ∣ ⌊q⌋ then ⌊q⌋ else ⌊q⌋ + 1

/-- `DataFrame.round(2)` on one value. -/
def round2 (q : ℚ) : ℚ := (roundHalfEven (q * 100) : ℚ) / 100

/-- One row of `analyze_expenses`' category table: `總花費` (total), `筆數`
(count), `平均花費` (mean), all passed through the `.round(2)` that is
applied right after the aggregation. -/
structure CategorySummary where
  category : String
  total : ℚ
  count : Nat
  mean : ℚ
deriving DecidableEq

/-- The aggregated and rounded row built for one category. -/
def summaryOf (df : List Record) (c : String) : CategorySummary :=
  { category := c
    total := round2 (catTotal df c)
    count := catCount df c
    mean := round2 (catTotal df c / (catCount df c : ℚ)) }

/-- `category_summary` of `analyze_expenses.py`: group by `類別` (keys
ascending), aggregate sum/count/mean, round everything to two decimals, then
sort by the rounded total descending. -/
def analyzeCategorySummary (df : List Record) : List CategorySummary :=
  sortValuesDesc CategorySummary.total
    ((uniqueKeysSorted (df.map Record.category)).map (summaryOf df))

/-- Untyped Python runtime errors the scripts can actually raise, plus the
`NoDataError` that the design document postulates (no script defines or
raises it). -/
inductive PyErr where
  | indexError
  | valueError
  | noDataError
deriving DecidableEq

/-- `category_summary.index[0]` and the matching `.loc` row: the first row
of the summary. On an empty summary, positional indexing raises the built-in
`IndexError`. -/
def leadingCategory (summaries : List CategorySummary) : Except PyErr CategorySummary :=
  match summaries with
  | [] => .error .indexError
  | s :: _ => .ok s

/-- `max_amount` of `analyze_expenses.py`: the (rounded) `總花費` entry of
the leading category, the value written to the report. -/
def analyzeMaxAmount (df : List Record) : Except PyErr ℚ :=
  (leadingCategory (analyzeCategorySummary df)).map CategorySummary.total

/-- `pivot_table(values='金額', index='年月', columns='類別', aggfunc='sum',
fill_value=0)`: for every month (rows, ascending) the amount per category
(columns, ascending), absent pairs filled with zero. -/
def pivotMonthCategory (df : List Record) : List (String × List (String × ℚ)) :=
  (uniqueKeysSorted (df.map Record.yearMonth)).map fun m =>
    (m, (uniqueKeysSorted (df.map Record.category)).map fun c => (c, cellTotal df m c))

/-- Descending stable comparison on index-tagged elements: the order of
`nlargest(n, col)` with its default `keep='first'` (larger key first, ties
kept in original row order). -/
def nlargestRel {α : Type} (key : α → ℚ) (a b : Nat × α) : Prop :=
  key b.2 < key a.2 ∨ (key a.2 = key b.2 ∧ a.1 ≤ b.1)

instance {α : Type} (key : α → ℚ) : DecidableRel (nlargestRel key) := fun a b => by
  unfold nlargestRel; infer_instance

instance {α : Type} (key : α → ℚ) : IsTotal (Nat × α) (nlargestRel key) := by
  constructor
  intro a b
  rcases lt_trichotomy (key a.2) (key b.2) with h | h | h
  · exact Or.inr (Or.inl h)
  · rcases Nat.le_total a.1 b.1 with h1 | h1
    · exact Or.inl (Or.inr ⟨h, h1⟩)
    · exact Or.inr (Or.inr ⟨h.symm, h1⟩)
  · exact Or.inl (Or.inl h)

instance {α : Type} (key : α → ℚ) : IsTrans (Nat × α) (nlargestRel key) := by
  constructor
  rintro a b c (hab | ⟨hab, hab'⟩) (hbc | ⟨hbc, hbc'⟩)
  · exact Or.inl (hbc.trans hab)
  · exact Or.inl (hbc ▸ hab)
  · exact Or.inl (hab ▸ hbc)
  · exact Or.inr ⟨hab.trans hbc, hab'.trans hbc'⟩

/-- `df.nlargest(n, '金額')`, keeping the original row index visible. -/
def topNIdx (df : List Record) (n : Nat) : List (Nat × Record) :=
  ((df.enum).insertionSort (nlargestRel Record.amount)).take n

/-- The record sequence shown by `create_top_expenses_table` in
`dashboard.py` (its subsequent date/amount string formatting is presentation
only and keeps order and length). -/
def create_top_expenses_table (df : List Record) (n : Nat) : List Record :=
  (topNIdx df n).map Prod.snd

/-- The dashboard's filter step (`dashboard.py`, `main`): only when BOTH
multiselect lists are non-empty is the conjunction of the two memberships
applied; otherwise the unfiltered dataframe is used. -/
def applyFilter (df : List Record) (cats months : List String) : List Record :=
  if !cats.isEmpty && !months.isEmpty then
    df.filter fun r => cats.contains r.category && months.contains r.yearMonth
  else df

/-- The record predicate that the design document's `applyFilter` contract
specifies: each non-empty selection restricts independently of the other.
Stated from the spec's words, for comparison with the implemented
`applyFilter`. -/
def specFilterKeep (cats months : List String) (r : Record) : Bool :=
  (cats.isEmpty || cats.contains r.category)
    && (months.isEmpty || months.contains r.yearMonth)

/-- The dataframe state seen by `visualize_expenses.py`: raw `日期` cells,
`金額`, `類別`, and the `年月` column when (and only when) it has been
added. -/
structure VizFrame where
  dates : List Cell
  amounts : List ℚ
  categories : List String
  yearMonth : Option (List String)
deriving DecidableEq

/-- `create_monthly_trend_chart` of `visualize_expenses.py`. It assigns
`df['日期'] = pd.to_datetime(df['日期'])` and `df['年月'] = ...` on its input
frame before grouping, so the model returns the updated frame alongside the
chart series. -/
def create_monthly_trend_chart (f : VizFrame) :
    Except PyErr (VizFrame × List (String × ℚ)) :=
  match mapMOpt pdToDatetime f.dates with
  | none => .error .valueError
  | some ds =>
    let yms := ds.map fun d => ymKey d.y d.m
    let f2 : VizFrame :=
      { dates := ds.map Cell.date, amounts := f.amounts,
        categories := f.categories, yearMonth := some yms }
    let pairs := yms.zip f.amounts
    let series := (uniqueKeysSorted yms).map fun m =>
      (m, ((pairs.filter fun p => p.1 == m).map Prod.snd).sum)
    .ok (f2, series)

/-- `create_category_monthly_trend_chart` of `visualize_expenses.py`: the
same in-place date/month derivation on the input frame, then the month ×
category pivot. -/
def create_category_monthly_trend_chart (f : VizFrame) :
    Except PyErr (VizFrame × List (String × List (String × ℚ))) :=
  match mapMOpt pdToDatetime f.dates with
  | none => .error .valueError
  | some ds =>
    let yms := ds.map fun d => ymKey d.y d.m
    let f2 : VizFrame :=
      { dates := ds.map Cell.date, amounts := f.amounts,
        categories := f.categories, yearMonth := some yms }
    let rows := yms.zip (f.categories.zip f.amounts)
    let pivot := (uniqueKeysSorted yms).map fun m =>
      (m, (uniqueKeysSorted f.categories).map fun c =>
        (c, ((rows.filter fun p => p.1 == m && p.2.1 == c).map fun p => p.2.2).sum))
    .ok (f2, pivot)


instance {ε α : Type} [DecidableEq ε] [DecidableEq α] : DecidableEq (Except ε α) := fun x y =>
  match x, y with
  | .ok a, .ok b =>
    if h : a = b then isTrue (by rw [h])
    else isFalse (by intro hh; injection hh; exact h (by assumption))
  | .error e, .error e2 =>
    if h : e = e2 then isTrue (by rw [h])
    else isFalse (by intro hh; injection hh; exact h (by assumption))
  | .ok _, .error _ => isFalse (by intro hh; cases hh)
  | .error _, .ok _ => isFalse (by intro hh; cases hh)

/-! Concrete ledger fixtures used to instantiate and to refute the stated
properties. `rFood`, `rTransit`, `rMovie` are the scenario rows of the
design document (2024-01-01 lunch 150 food; 2024-01-02 transit 30 transport;
2024-02-01 movie 280 entertainment). -/

def rFood : Record := ⟨⟨2024, 1, 1⟩, "lunch", 150, "food", "2024-01"⟩

def rTransit : Record := ⟨⟨2024, 1, 2⟩, "transit", 30, "transport", "2024-01"⟩

def rMovie : Record := ⟨⟨2024, 2, 1⟩, "movie", 280, "entertainment", "2024-02"⟩

/-- Two records in distinct categories `"a"` and `"b"` with equal amounts:
the category totals tie. -/
def rTieA : Record := ⟨⟨2024, 1, 1⟩, "x", 1, "a", "2024-01"⟩

def rTieB : Record := ⟨⟨2024, 1, 2⟩, "y", 1, "b", "2024-01"⟩

/-- A one-row ledger whose amount, 0.005, has more than two decimal places. -/
def dfHalfCent : List Record := [⟨⟨2024, 1, 1⟩, "tiny", 1 / 200, "a", "2024-01"⟩]

/-- A one-row ledger with amount 1.005: its rounded total differs from its
exact total. -/
def dfC8 : List Record := [⟨⟨2024, 1, 1⟩, "thing", 201 / 200, "a", "2024-01"⟩]

/-- A raw table with all four required columns, a valid date, and a `金額`
cell that is not convertible to a number. -/
def tBadAmount : RawTable :=
  { columns := ["日期", "項目", "金額", "類別"],
    rows := [[.str "2024-01-03", .str "lunch", .str "abc", .str "food"]] }

/-- A raw table whose `日期` column is missing. -/
def tNoDate : RawTable :=
  { columns := ["項目", "金額", "類別"],
    rows := [[.str "lunch", .num 150, .str "food"]] }

/-- A raw table with all four columns and one unparseable date. -/
def tBadDate : RawTable :=
  { columns := ["日期", "項目", "金額", "類別"],
    rows := [[.str "not-a-date", .str "lunch", .num 150, .str "food"]] }

/-- A well-formed raw table with two rows in different months. -/
def tGood : RawTable :=
  { columns := ["日期", "項目", "金額", "類別"],
    rows := [[.str "2024-01-01", .str "lunch", .num 150, .str "food"],
             [.str "2024-02-01", .str "movie", .num 280, .str "entertainment"]] }

/-- The two rows that `load_data` produces from `tGood`. -/
def rowJan : LoadedRow :=
  ⟨⟨2024, 1, 1⟩, .str "lunch", .num 150, .str "food", "2024-01", 1, 2024⟩

def rowFeb : LoadedRow :=
  ⟨⟨2024, 2, 1⟩, .str "movie", .num 280, .str "entertainment", "2024-02", 2, 2024⟩

/-- A visualize-side frame fresh from `read_excel`: no `年月` column yet. -/
def fViz : VizFrame := ⟨[.str "2024-01-01"], [150], ["food"], none⟩

/-! Order lemmas for the string comparison used by `groupby`'s sorted key
index. -/

theorem charListLe_total : ∀ a b : List Char, charListLe a b = true ∨ charListLe b a = true := by
  intro a
  induction a with
  | nil => intro b; left; rfl
  | cons x xs ih =>
    intro b
    cases b with
    | nil => right; rfl
    | cons y ys =>
      by_cases h1 : x.toNat < y.toNat
      · left; simp [charListLe, h1]
      · by_cases h2 : y.toNat < x.toNat
        · right; simp [charListLe, h1, h2]
        · rcases ih ys with h | h
          · left; simp [charListLe, h1, h2, h]
          · right; simp [charListLe, h1, h2, h]

theorem charListLe_trans :
    ∀ a b c : List Char,
      charListLe a b = true → charListLe b c = true → charListLe a c = true := by
  intro a
  induction a with
  | nil => intro b c _ _; rfl
  | cons x xs ih =>
    intro b c hab hbc
    cases b with
    | nil => simp [charListLe] at hab
    | cons y ys =>
      cases c with
      | nil => simp [charListLe] at hbc
      | cons z zs =>
        by_cases hxy : x.toNat < y.toNat
        · by_cases hyz : y.toNat < z.toNat
          · have hxz : x.toNat < z.toNat := lt_trans hxy hyz
            simp [charListLe, hxz]
          · by_cases hzy : z.toNat < y.toNat
            · simp [charListLe, hyz, hzy] at hbc
            · have hyz2 : y.toNat = z.toNat := Nat.le_antisymm (Nat.not_lt.mp hzy) (Nat.not_lt.mp hyz)
              have hxz : x.toNat < z.toNat := hyz2 ▸ hxy
              simp [charListLe, hxz]
        · by_cases hyx : y.toNat < x.toNat
          · simp [charListLe, hxy, hyx] at hab
          · have hxy2 : x.toNat = y.toNat := Nat.le_antisymm (Nat.not_lt.mp hyx) (Nat.not_lt.mp hxy)
            simp only [charListLe, if_neg hxy, if_neg hyx] at hab
            by_cases hyz : y.toNat < z.toNat
            · have hxz : x.toNat < z.toNat := hxy2 ▸ hyz
              simp [charListLe, hxz]
            · by_cases hzy : z.toNat < y.toNat
              · simp [charListLe, hyz, hzy] at hbc
              · have hyz2 : y.toNat = z.toNat := Nat.le_antisymm (Nat.not_lt.mp hzy) (Nat.not_lt.mp hyz)
                simp only [charListLe, if_neg hyz, if_neg hzy] at hbc
                have hxz : ¬ x.toNat < z.toNat := by rw [hxy2, hyz2]; exact lt_irrefl _
                have hzx : ¬ z.toNat < x.toNat := by rw [hxy2, hyz2]; exact lt_irrefl _
                simp only [charListLe, if_neg hxz, if_neg hzx]
                exact ih ys zs hab hbc

theorem charListLt_of_le_of_ne :
    ∀ a b : List Char, charListLe a b = true → a ≠ b → charListLt a b = true := by
  intro a
  induction a with
  | nil =>
    intro b _ hne
    cases b with
    | nil => exact absurd rfl hne
    | cons y ys => rfl
  | cons x xs ih =>
    intro b hab hne
    cases b with
    | nil => simp [charListLe] at hab
    | cons y ys =>
      by_cases hxy : x.toNat < y.toNat
      · simp [charListLt, hxy]
      · by_cases hyx : y.toNat < x.toNat
        · simp [charListLe, hxy, hyx] at hab
        · have hxy2 : x.toNat = y.toNat := Nat.le_antisymm (Nat.not_lt.mp hyx) (Nat.not_lt.mp hxy)
          have hchar : x = y := Char.ext (UInt32.ext (by simpa [Char.toNat] using hxy2))
          simp only [charListLe, if_neg hxy, if_neg hyx] at hab
          have htails : xs ≠ ys := by
            intro h; exact hne (by rw [hchar, h])
          simp only [charListLt, if_neg hxy, if_neg hyx]
          exact ih ys hab htails

theorem strLe_total (a b : String) : strLe a b = true ∨ strLe b a = true :=
  charListLe_total a.data b.data

theorem strLe_trans {a b c : String} (h1 : strLe a b = true) (h2 : strLe b c = true) :
    strLe a c = true :=
  charListLe_trans a.data b.data c.data h1 h2

theorem strLt_of_le_of_ne {a b : String} (h1 : strLe a b = true) (h2 : a ≠ b) :
    strLt a b = true := by
  refine charListLt_of_le_of_ne a.data b.data h1 ?_
  intro h
  exact h2 (String.ext h)

instance : IsTotal String strLeP :=
  ⟨fun a b => strLe_total a b⟩

instance : IsTrans String strLeP :=
  ⟨fun _ _ _ h1 h2 => strLe_trans h1 h2⟩

theorem dedupKeys_cons (x : String) (xs : List String) :
    dedupKeys (x :: xs) =
      if x ∈ dedupKeys xs then dedupKeys xs else x :: dedupKeys xs := by
  by_cases hx : x ∈ dedupKeys xs
  · have hb : (dedupKeys xs).contains x = true := by
      simpa [List.contains, List.elem_iff] using hx
    simp only [dedupKeys]
    rw [if_pos hb, if_pos hx]
  · have hb : ¬ (dedupKeys xs).contains x = true := by
      simpa [List.contains, List.elem_iff] using hx
    simp only [dedupKeys]
    rw [if_neg hb, if_neg hx]

theorem mem_dedupKeys {a : String} : ∀ {l : List String}, a ∈ dedupKeys l ↔ a ∈ l := by
  intro l
  induction l with
  | nil => simp [dedupKeys]
  | cons x xs ih =>
    rw [dedupKeys_cons]
    by_cases hx : x ∈ dedupKeys xs
    · rw [if_pos hx]
      simp only [List.mem_cons, ih]
      constructor
      · intro hm; exact Or.inr hm
      · rintro (rfl | hm)
        · exact ih.mp hx
        · exact hm
    · rw [if_neg hx]
      simp [ih]

theorem nodup_dedupKeys : ∀ l : List String, (dedupKeys l).Nodup := by
  intro l
  induction l with
  | nil => simp [dedupKeys]
  | cons x xs ih =>
    rw [dedupKeys_cons]
    by_cases hx : x ∈ dedupKeys xs
    · rwa [if_pos hx]
    · rw [if_neg hx]
      exact List.Nodup.cons hx ih

theorem mem_uniqueKeysSorted {a : String} {l : List String} :
    a ∈ uniqueKeysSorted l ↔ a ∈ l := by
  unfold uniqueKeysSorted
  rw [List.mem_insertionSort]
  exact mem_dedupKeys

theorem nodup_uniqueKeysSorted (l : List String) : (uniqueKeysSorted l).Nodup :=
  ((List.perm_insertionSort strLeP (dedupKeys l)).nodup_iff).mpr (nodup_dedupKeys l)

theorem sorted_uniqueKeysSorted (l : List String) :
    List.Pairwise strLeP (uniqueKeysSorted l) :=
  List.sorted_insertionSort strLeP (dedupKeys l)

theorem pairwise_strLt_uniqueKeysSorted (l : List String) :
    List.Pairwise (fun a b => strLt a b = true) (uniqueKeysSorted l) := by
  have h1 := (sorted_uniqueKeysSorted l).and (nodup_uniqueKeysSorted l)
  exact h1.imp fun hab => strLt_of_le_of_ne hab.1 hab.2

/-! Summation helpers: splitting a dataframe total along the distinct values
of a grouping key. -/

theorem sum_map_ite_zero {x : String} {q : ℚ} :
    ∀ {ks : List String}, x ∉ ks → (ks.map fun k => if x = k then q else 0).sum = 0 := by
  intro ks
  induction ks with
  | nil => intro _; rfl
  | cons k ks ih =>
    intro hx
    have hxk : x ≠ k := fun h => hx (h ▸ List.mem_cons_self k ks)
    have hxs : x ∉ ks := fun h => hx (List.mem_cons_of_mem k h)
    simp [hxk, ih hxs]

theorem sum_map_ite_eq {x : String} {q : ℚ} :
    ∀ {ks : List String}, ks.Nodup → x ∈ ks →
      (ks.map fun k => if x = k then q else 0).sum = q := by
  intro ks
  induction ks with
  | nil => intro _ hx; exact absurd hx (List.not_mem_nil x)
  | cons k ks ih =>
    intro hnd hx
    rcases List.mem_cons.mp hx with rfl | hmem
    · have hnotin : x ∉ ks := (List.nodup_cons.mp hnd).1
      simp [sum_map_ite_zero hnotin]
    · have hne : x ≠ k := by
        rintro rfl
        exact (List.nodup_cons.mp hnd).1 hmem
      simp [hne, ih (List.nodup_cons.mp hnd).2 hmem]

/-- Splitting the total of a dataframe along any duplicate-free list of keys
that covers every row: the heart of the "conservation of total" and of the
pivot row/column identities. -/
theorem sum_filter_key_partition {α : Type} (key : α → String) (am : α → ℚ) :
    ∀ (df : List α) (ks : List String), ks.Nodup → (∀ r ∈ df, key r ∈ ks) →
      (ks.map fun k => ((df.filter fun r => key r == k).map am).sum).sum
        = (df.map am).sum := by
  intro df
  induction df with
  | nil => intro ks _ _; simp
  | cons r rest ih =>
    intro ks hnd hmem
    have hr : key r ∈ ks := hmem r (List.mem_cons_self r rest)
    have hrest : ∀ x ∈ rest, key x ∈ ks := fun x hx => hmem x (List.mem_cons_of_mem r hx)
    have hsplit : ∀ k, (((r :: rest).filter fun x => key x == k).map am).sum
        = (if key r = k then am r else 0)
          + ((rest.filter fun x => key x == k).map am).sum := by
      intro k
      by_cases h : key r = k
      · simp [List.filter_cons, h]
      · simp [List.filter_cons, h]
    calc (ks.map fun k => (((r :: rest).filter fun x => key x == k).map am).sum).sum
        = (ks.map fun k => (if key r = k then am r else 0)
            + ((rest.filter fun x => key x == k).map am).sum).sum := by
          exact congrArg List.sum (List.map_congr_left fun k _ => hsplit k)
      _ = (ks.map fun k => if key r = k then am r else 0).sum
            + (ks.map fun k => ((rest.filter fun x => key x == k).map am).sum).sum :=
          List.sum_map_add
      _ = am r + (rest.map am).sum := by
          rw [sum_map_ite_eq hnd hr, ih ks hnd hrest]
      _ = ((r :: rest).map am).sum := by simp

/-! Sorting helpers: the index tags of `enum` are strictly increasing, and
both descending sorts refine ties into strict orders on those tags. -/

theorem pairwise_fst_lt_enumFrom {α : Type} :
    ∀ (l : List α) (n : ℕ),
      List.Pairwise (fun a b : ℕ × α => a.1 < b.1) (l.enumFrom n) := by
  intro l
  induction l with
  | nil => intro n; simp
  | cons a l ih =>
    intro n
    rw [List.enumFrom_cons]
    refine List.Pairwise.cons ?_ (ih (n + 1))
    intro p hp
    have := List.mem_enumFrom (x := p.2) (i := p.1) (j := n + 1) (by simpa using hp)
    omega

theorem pairwise_fst_lt_enum {α : Type} (l : List α) :
    List.Pairwise (fun a b : ℕ × α => a.1 < b.1) l.enum := by
  rw [List.enum_eq_enumFrom]
  exact pairwise_fst_lt_enumFrom l 0

theorem sortValuesDesc_perm {α : Type} (key : α → ℚ) (l : List α) :
    (sortValuesDesc key l).Perm l := by
  unfold sortValuesDesc
  refine (List.reverse_perm _).trans ?_
  have h1 := (List.perm_insertionSort (stableAscLe key) l.enum).map Prod.snd
  rwa [List.enum_map_snd] at h1

theorem pairwise_sorted_nlargest {α : Type} (key : α → ℚ) (l : List α) :
    List.Pairwise
      (fun a b : ℕ × α => key b.2 < key a.2 ∨ (key a.2 = key b.2 ∧ a.1 < b.1))
      (l.enum.insertionSort (nlargestRel key)) := by
  have hsort : List.Sorted (nlargestRel key) (l.enum.insertionSort (nlargestRel key)) :=
    List.sorted_insertionSort _ _
  have hperm := List.perm_insertionSort (nlargestRel key) l.enum
  have hneq : List.Pairwise (fun a b : ℕ × α => a.1 ≠ b.1)
      (l.enum.insertionSort (nlargestRel key)) := by
    have h0 : List.Pairwise (fun a b : ℕ × α => a.1 ≠ b.1) l.enum :=
      (pairwise_fst_lt_enum l).imp fun h => Nat.ne_of_lt h
    exact h0.perm hperm.symm fun h => h.symm
  refine (hsort.and hneq).imp ?_
  rintro a b ⟨h1 | ⟨heq, hle⟩, hne⟩
  · exact Or.inl h1
  · exact Or.inr ⟨heq, lt_of_le_of_ne hle hne⟩

theorem topNIdx_pairwise (df : List Record) (n : ℕ) :
    List.Pairwise
      (fun a b : ℕ × Record =>
        b.2.amount < a.2.amount ∨ (a.2.amount = b.2.amount ∧ a.1 < b.1))
      (topNIdx df n) :=
  List.Pairwise.sublist (List.take_sublist n _) (pairwise_sorted_nlargest Record.amount df)

/-- C7: `topN(R, n)` returns exactly `min n (length R)` records, sorted by
amount descending; records of equal amount keep their original relative
order (the index tags attached by `topNIdx` are the original row positions,
as the final conjunct states), so the output is deterministic. -/
theorem spec_topN_deterministic (df : List Record) (n : ℕ) :
    (create_top_expenses_table df n).length = min n df.length
    ∧ List.Pairwise (fun a b : Record => b.amount ≤ a.amount)
        (create_top_expenses_table df n)
    ∧ (create_top_expenses_table df n).Subperm df
    ∧ List.Pairwise
        (fun a b : ℕ × Record =>
          b.2.amount < a.2.amount ∨ (a.2.amount = b.2.amount ∧ a.1 < b.1))
        (topNIdx df n)
    ∧ ∀ p ∈ topNIdx df n, df.get? p.1 = some p.2 := by
  refine ⟨?_, ?_, ?_, topNIdx_pairwise df n, ?_⟩
  · unfold create_top_expenses_table topNIdx
    rw [List.length_map, List.length_take, List.length_insertionSort, List.enum_length]
  · unfold create_top_expenses_table
    rw [List.pairwise_map]
    refine (topNIdx_pairwise df n).imp ?_
    rintro a b (h | ⟨heq, _⟩)
    · exact le_of_lt h
    · exact le_of_eq heq.symm
  · have h1 : (topNIdx df n).Subperm df.enum :=
      ((List.take_sublist n _).subperm).trans
        (List.perm_insertionSort (nlargestRel Record.amount) df.enum).subperm
    obtain ⟨w, hw1, hw2⟩ := h1
    refine ⟨w.map Prod.snd, hw1.map Prod.snd, ?_⟩
    have := hw2.map Prod.snd
    rwa [List.enum_map_snd] at this
  · intro p hp
    have hp1 : p ∈ (df.enum.insertionSort (nlargestRel Record.amount)) :=
      (List.take_sublist n _).subset hp
    have hp2 : p ∈ df.enum := (List.mem_insertionSort _).mp hp1
    exact List.mem_enum_iff_get?.mp hp2

theorem sum_groupbySumByCategory (df : List Record) :
    ((groupbySumByCategory df).map Prod.snd).sum = (df.map Record.amount).sum := by
  unfold groupbySumByCategory
  rw [List.map_map]
  refine Eq.trans ?_
    (sum_filter_key_partition Record.category Record.amount df
      (uniqueKeysSorted (df.map Record.category)) (nodup_uniqueKeysSorted _) ?_)
  · rfl
  · intro r hr
    exact mem_uniqueKeysSorted.mpr (List.mem_map_of_mem Record.category hr)

/-- C2 (amended): conservation of the total holds for the exact, unrounded
category sums that the dashboard's pie chart displays: their sum is the sum
of all record amounts. (In `analyze_expenses.py` the reported per-category
totals are rounded to two decimals right after aggregation, so conservation
fails there; see the counterexample.) -/
theorem spec_conservation_of_total (df : List Record) :
    ((create_category_pie_chart df).map Prod.snd).sum = (df.map Record.amount).sum := by
  have hperm := (sortValuesDesc_perm Prod.snd (groupbySumByCategory df)).map Prod.snd
  rw [create_category_pie_chart, hperm.sum_eq]
  exact sum_groupbySumByCategory df

theorem uniqueKeysSorted_single (k : String) :
    uniqueKeysSorted [k] = [k] := by
  simp [uniqueKeysSorted, dedupKeys, List.insertionSort]

/-- C2 (counterexample): on a one-record ledger with amount 0.005, the sum
of the per-category totals reported by `analyze_expenses`' category summary
is 0, not 0.005: the `.round(2)` applied to the aggregation loses mass. -/
theorem spec_conservation_counterexample :
    ((analyzeCategorySummary dfHalfCent).map CategorySummary.total).sum
      ≠ (dfHalfCent.map Record.amount).sum := by
  have hks : uniqueKeysSorted (dfHalfCent.map Record.category) = ["a"] := by
    rw [show dfHalfCent.map Record.category = ["a"] from rfl]
    exact uniqueKeysSorted_single "a"
  have h1 : catTotal dfHalfCent "a" = 1 / 200 := by
    simp [catTotal, dfHalfCent]
  have h2 : catCount dfHalfCent "a" = 1 := by
    simp [catCount, dfHalfCent]
  have hsummary : analyzeCategorySummary dfHalfCent = [⟨"a", 0, 1, 0⟩] := by
    rw [analyzeCategorySummary, hks]
    rw [show (["a"].map (summaryOf dfHalfCent)) = [⟨"a", 0, 1, 0⟩] by
      simp only [List.map_cons, List.map_nil, summaryOf, h1, h2]
      norm_num [round2, roundHalfEven]]
    simp [sortValuesDesc, List.insertionSort, List.enum, List.enumFrom]
  rw [hsummary]
  norm_num [dfHalfCent]

/-- Transport of a pairwise relation through `sort_values(ascending=False)`:
the output is descending in the key, and a pair with equal keys appears in
the reverse of its original relative order. -/
theorem pairwise_sortValuesDesc {α : Type} (key : α → ℚ) (R : α → α → Prop)
    (l : List α) (hR : List.Pairwise R l) :
    List.Pairwise (fun x y => key y < key x ∨ (key y = key x ∧ R y x))
      (sortValuesDesc key l) := by
  unfold sortValuesDesc
  rw [List.pairwise_reverse, List.pairwise_map]
  have hsort : List.Sorted (stableAscLe key) (l.enum.insertionSort (stableAscLe key)) :=
    List.sorted_insertionSort _ _
  have hperm := List.perm_insertionSort (stableAscLe key) l.enum
  have hneq : List.Pairwise (fun a b : ℕ × α => a.1 ≠ b.1)
      (l.enum.insertionSort (stableAscLe key)) := by
    have h0 : List.Pairwise (fun a b : ℕ × α => a.1 ≠ b.1) l.enum :=
      (pairwise_fst_lt_enum l).imp fun h => Nat.ne_of_lt h
    exact h0.perm hperm.symm fun h => h.symm
  have hget : ∀ p : ℕ × α, p ∈ l.enum.insertionSort (stableAscLe key) →
      l.get? p.1 = some p.2 := by
    intro p hp
    exact List.mem_enum_iff_get?.mp ((List.mem_insertionSort _).mp hp)
  have hR' := List.pairwise_iff_get.mp hR
  refine List.Pairwise.imp_of_mem ?_ (hsort.and hneq)
  intro a b ha hb hab
  rcases hab with ⟨h1 | ⟨heq, hle⟩, hne⟩
  · exact Or.inl h1
  · have hlt : a.1 < b.1 := lt_of_le_of_ne hle hne
    obtain ⟨hA, hgA⟩ := List.get?_eq_some.mp (hget a ha)
    obtain ⟨hB, hgB⟩ := List.get?_eq_some.mp (hget b hb)
    have hr := hR' ⟨a.1, hA⟩ ⟨b.1, hB⟩ hlt
    rw [hgA, hgB] at hr
    exact Or.inr ⟨heq, hr⟩

/-- C3 (amended): `analyze_expenses`' category summary is sorted
non-increasing by (rounded) total; two categories with equal totals appear
in DESCENDING label order, because the `groupby` index is ascending and the
descending `sort_values` reverses the order of ties. Deterministic either
way. -/
theorem spec_category_summary_order (df : List Record) :
    List.Pairwise
      (fun a b : CategorySummary =>
        b.total < a.total ∨ (b.total = a.total ∧ strLt b.category a.category = true))
      (analyzeCategorySummary df) := by
  unfold analyzeCategorySummary
  have hR : List.Pairwise
      (fun a b : CategorySummary => strLt a.category b.category = true)
      ((uniqueKeysSorted (df.map Record.category)).map (summaryOf df)) := by
    rw [List.pairwise_map]
    refine (pairwise_strLt_uniqueKeysSorted _).imp ?_
    intro a b h
    simp only [summaryOf] at h ⊢
    exact h
  exact pairwise_sortValuesDesc CategorySummary.total _ _ hR

/-- C3 (counterexample): two categories `"a"`, `"b"` with equal totals come
out in the order `["b", "a"]`, which is descending, not ascending, in the
category label. -/
theorem spec_category_summary_order_counterexample :
    (analyzeCategorySummary [rTieA, rTieB]).map CategorySummary.category = ["b", "a"]
    ∧ (analyzeCategorySummary [rTieA, rTieB]).map CategorySummary.total = [1, 1]
    ∧ strLt "a" "b" = true := by
  have hks : uniqueKeysSorted ([rTieA, rTieB].map Record.category) = ["a", "b"] := by
    decide
  have h1 : catTotal [rTieA, rTieB] "a" = 1 := by
    simp [catTotal, rTieA, rTieB]
  have h2 : catTotal [rTieA, rTieB] "b" = 1 := by
    simp [catTotal, rTieA, rTieB]
  have h1c : catCount [rTieA, rTieB] "a" = 1 := by
    simp [catCount, rTieA, rTieB]
  have h2c : catCount [rTieA, rTieB] "b" = 1 := by
    simp [catCount, rTieA, rTieB]
  have hmap : (["a", "b"].map (summaryOf [rTieA, rTieB]))
      = [⟨"a", 1, 1, 1⟩, ⟨"b", 1, 1, 1⟩] := by
    simp only [List.map_cons, List.map_nil, summaryOf, h1, h2, h1c, h2c]
    norm_num [round2, roundHalfEven]
  have hfinal : analyzeCategorySummary [rTieA, rTieB]
      = [⟨"b", 1, 1, 1⟩, ⟨"a", 1, 1, 1⟩] := by
    rw [analyzeCategorySummary, hks, hmap]
    norm_num [sortValuesDesc, List.insertionSort, List.orderedInsert, stableAscLe,
      List.enum, List.enumFrom]
  rw [hfinal]
  refine ⟨rfl, rfl, by decide⟩

/-- C1 (amended): the dashboard filter keeps a record iff it is in the input
and EITHER one of the two selection lists is empty (whole filter becomes a
pass-through) OR the record matches both selections. In particular, when
exactly one list is empty the other list's restriction is NOT applied. The
result is always a sublist of the input (never fails, possibly empty). -/
theorem spec_applyFilter_semantics (df : List Record) (cats months : List String)
    (r : Record) :
    (r ∈ applyFilter df cats months ↔
      r ∈ df ∧ (cats = [] ∨ months = [] ∨
        (r.category ∈ cats ∧ r.yearMonth ∈ months)))
    ∧ (applyFilter df cats months).Sublist df := by
  cases cats with
  | nil => simp [applyFilter]
  | cons c cs =>
    cases months with
    | nil => simp [applyFilter]
    | cons m ms =>
      constructor
      · simp [applyFilter, List.mem_filter, List.contains, List.elem_iff]
      · simp only [applyFilter, List.isEmpty_cons, Bool.not_false, Bool.and_self, if_pos]
        exact List.filter_sublist df

/-- C1 (counterexample): with an empty category selection and the month
selection `["2024-02"]`, the January record `rFood` is kept by the
dashboard's filter, although the specified per-set semantics would drop it
(its `年月` key `"2024-01"` is not in the selected months). -/
theorem spec_applyFilter_counterexample :
    applyFilter [rFood] [] ["2024-02"] = [rFood]
    ∧ specFilterKeep [] ["2024-02"] rFood = false := by
  decide

/-- C5 (amended): on a non-empty summary (already sorted descending)
`leadingCategory` returns the first row; on an empty summary it fails with
the untyped built-in `IndexError` that `category_summary.index[0]` raises.
No `NoDataError` exists anywhere in the code. -/
theorem spec_leadingCategory (s : CategorySummary) (rest : List CategorySummary) :
    leadingCategory [] = .error .indexError
    ∧ leadingCategory (s :: rest) = .ok s :=
  ⟨rfl, rfl⟩

/-- C5 (counterexample): the failure on an empty summary is the positional
`IndexError`, not the typed `NoDataError` that the design document names. -/
theorem spec_leadingCategory_counterexample :
    leadingCategory [] = Except.error PyErr.indexError
    ∧ Except.error PyErr.indexError ≠ (Except.error PyErr.noDataError : Except PyErr CategorySummary) := by
  refine ⟨rfl, ?_⟩
  simp

theorem mem_sortValuesDesc {α : Type} (key : α → ℚ) {l : List α} {x : α} :
    x ∈ sortValuesDesc key l ↔ x ∈ l :=
  (sortValuesDesc_perm key l).mem_iff

/-- C8 (amended): in `analyze_expenses.py` the two-decimal rounding is
applied to the aggregated table itself, before the leading category is
extracted: the amount written to the report is `round2` of the exact total,
not the exact total. The dashboard's pie-chart aggregation, by contrast,
carries exact unrounded sums. -/
theorem spec_rounding_placement (df : List Record)
    (h : analyzeCategorySummary df ≠ []) :
    ∃ s rest, analyzeCategorySummary df = s :: rest
      ∧ analyzeMaxAmount df = .ok s.total
      ∧ s.total = round2 (catTotal df s.category)
      ∧ ∀ p ∈ create_category_pie_chart df, p.2 = catTotal df p.1 := by
  cases hsum : analyzeCategorySummary df with
  | nil => exact absurd hsum h
  | cons s rest =>
    refine ⟨s, rest, rfl, ?_, ?_, ?_⟩
    · rw [analyzeMaxAmount, hsum]
      rfl
    · have hmem : s ∈ analyzeCategorySummary df := by
        rw [hsum]; exact List.mem_cons_self s rest
      rw [analyzeCategorySummary] at hmem
      rw [mem_sortValuesDesc] at hmem
      obtain ⟨c, _, rfl⟩ := List.mem_map.mp hmem
      rfl
    · intro p hp
      rw [create_category_pie_chart, mem_sortValuesDesc] at hp
      rw [groupbySumByCategory] at hp
      obtain ⟨c, _, rfl⟩ := List.mem_map.mp hp
      rfl

/-- C8 (counterexample): for a single purchase of 1.005 the report's leading
amount is the rounded 1.00, while the exact category total is 1.005: the
value consumed downstream is NOT the unrounded exact sum. -/
theorem spec_rounding_placement_counterexample :
    analyzeMaxAmount dfC8 = .ok 1
    ∧ catTotal dfC8 "a" = 201 / 200
    ∧ (1 : ℚ) ≠ 201 / 200 := by
  have hks : uniqueKeysSorted (dfC8.map Record.category) = ["a"] := by
    rw [show dfC8.map Record.category = ["a"] from rfl]
    exact uniqueKeysSorted_single "a"
  have h1 : catTotal dfC8 "a" = 201 / 200 := by
    simp [catTotal, dfC8]
  have h2 : catCount dfC8 "a" = 1 := by
    simp [catCount, dfC8]
  have hmap : (["a"].map (summaryOf dfC8)) = [⟨"a", 1, 1, 1⟩] := by
    simp only [List.map_cons, List.map_nil, summaryOf, h1, h2]
    norm_num [round2, roundHalfEven]
  have hsummary : analyzeCategorySummary dfC8 = [⟨"a", 1, 1, 1⟩] := by
    rw [analyzeCategorySummary, hks, hmap]
    simp [sortValuesDesc, List.insertionSort, List.enum, List.enumFrom]
  refine ⟨?_, h1, by norm_num⟩
  rw [analyzeMaxAmount, hsummary]
  rfl

theorem cellTotal_eq_month_then_cat (df : List Record) (m c : String) :
    cellTotal df m c
      = (((df.filter fun r => r.yearMonth == m).filter fun r => r.category == c).map
          Record.amount).sum := by
  rw [List.filter_filter, cellTotal]
  exact congrArg (fun l => (List.map Record.amount l).sum)
    (List.filter_congr fun x _ => Bool.and_comm _ _)

theorem cellTotal_eq_cat_then_month (df : List Record) (m c : String) :
    cellTotal df m c
      = (((df.filter fun r => r.category == c).filter fun r => r.yearMonth == m).map
          Record.amount).sum := by
  rw [List.filter_filter, cellTotal]

theorem pivot_row_sum (df : List Record) (m : String) :
    ((uniqueKeysSorted (df.map Record.category)).map fun c => cellTotal df m c).sum
      = monthTotal df m := by
  have hpart := sum_filter_key_partition Record.category Record.amount
      (df.filter fun r => r.yearMonth == m) (uniqueKeysSorted (df.map Record.category))
      (nodup_uniqueKeysSorted _)
      (fun r hr =>
        mem_uniqueKeysSorted.mpr
          (List.mem_map_of_mem Record.category (List.mem_filter.mp hr).1))
  rw [monthTotal, ← hpart]
  exact congrArg List.sum (List.map_congr_left fun c _ => cellTotal_eq_month_then_cat df m c)

theorem pivot_col_sum (df : List Record) (c : String) :
    ((uniqueKeysSorted (df.map Record.yearMonth)).map fun m => cellTotal df m c).sum
      = catTotal df c := by
  have hpart := sum_filter_key_partition Record.yearMonth Record.amount
      (df.filter fun r => r.category == c) (uniqueKeysSorted (df.map Record.yearMonth))
      (nodup_uniqueKeysSorted _)
      (fun r hr =>
        mem_uniqueKeysSorted.mpr
          (List.mem_map_of_mem Record.yearMonth (List.mem_filter.mp hr).1))
  rw [catTotal, ← hpart]
  exact congrArg List.sum (List.map_congr_left fun m _ => cellTotal_eq_cat_then_month df m c)

theorem filter_fst_map_pair_nil {f : String → ℚ} {c : String} :
    ∀ {ks : List String}, c ∉ ks →
      ((ks.map fun k => (k, f k)).filter fun e => e.1 == c) = [] := by
  intro ks
  induction ks with
  | nil => intro _; rfl
  | cons k ks ih =>
    intro hc
    have hkc : ¬ (k = c) := fun h => hc (h ▸ List.mem_cons_self k ks)
    have hcs : c ∉ ks := fun h => hc (List.mem_cons_of_mem k h)
    simp only [List.map_cons, List.filter_cons]
    rw [if_neg (by simpa using hkc)]
    exact ih hcs

theorem filter_fst_map_pair {f : String → ℚ} {c : String} :
    ∀ {ks : List String}, ks.Nodup → c ∈ ks →
      ((ks.map fun k => (k, f k)).filter fun e => e.1 == c) = [(c, f c)] := by
  intro ks
  induction ks with
  | nil => intro _ hc; exact absurd hc (List.not_mem_nil c)
  | cons k ks ih =>
    intro hnd hc
    rcases List.mem_cons.mp hc with rfl | hmem
    · have hnotin : c ∉ ks := (List.nodup_cons.mp hnd).1
      simp only [List.map_cons, List.filter_cons]
      rw [if_pos (by simp)]
      rw [filter_fst_map_pair_nil hnotin]
    · have hne : ¬ (k = c) := by
        rintro rfl
        exact (List.nodup_cons.mp hnd).1 hmem
      simp only [List.map_cons, List.filter_cons]
      rw [if_neg (by simpa using hne)]
      exact ih (List.nodup_cons.mp hnd).2 hmem

/-- C4: cross-consistency of the month × category pivot on an unfiltered
record set. The pivot's row index is exactly the month index of the monthly
summary; every pivot row sums to that month's total as reported by the
monthly `groupby`; and, for every category row of the category `groupby`,
summing that category's column across all pivot rows gives the category's
reported total. Zero-filled cells are included in all sums. -/
theorem spec_pivot_cross_consistency (df : List Record) :
    ((pivotMonthCategory df).map Prod.fst = (groupbySumByMonth df).map Prod.fst)
    ∧ (∀ mr ∈ pivotMonthCategory df, (mr.2.map Prod.snd).sum = monthTotal df mr.1)
    ∧ (∀ p ∈ groupbySumByMonth df, p.2 = monthTotal df p.1)
    ∧ (∀ cp ∈ groupbySumByCategory df,
        ((pivotMonthCategory df).map fun mr =>
          ((mr.2.filter fun e => e.1 == cp.1).map Prod.snd).sum).sum = cp.2) := by
  refine ⟨?_, ?_, ?_, ?_⟩
  · simp [pivotMonthCategory, groupbySumByMonth, List.map_map]
  · intro mr hmr
    obtain ⟨m, _, rfl⟩ := List.mem_map.mp hmr
    simp only [List.map_map]
    exact pivot_row_sum df m
  · intro p hp
    obtain ⟨m, _, rfl⟩ := List.mem_map.mp hp
    rfl
  · intro cp hcp
    obtain ⟨c, hc, rfl⟩ := List.mem_map.mp hcp
    simp only [pivotMonthCategory, List.map_map]
    have hterm : ∀ m : String,
        ((((uniqueKeysSorted (df.map Record.category)).map fun k =>
            (k, cellTotal df m k)).filter fun e => e.1 == c).map Prod.snd).sum
          = cellTotal df m c := by
      intro m
      rw [filter_fst_map_pair (nodup_uniqueKeysSorted _) hc]
      simp
    refine Eq.trans ?_ (pivot_col_sum df c)
    exact congrArg List.sum (List.map_congr_left fun m _ => hterm m)

theorem mapMOpt_eq_none_iff {α β : Type} {f : α → Option β} :
    ∀ {l : List α}, mapMOpt f l = none ↔ ∃ a ∈ l, f a = none := by
  intro l
  induction l with
  | nil => simp [mapMOpt]
  | cons a l ih =>
    cases ha : f a with
    | none =>
      simp only [mapMOpt, ha]
      exact iff_of_true trivial ⟨a, List.mem_cons_self a l, ha⟩
    | some b =>
      cases hl : mapMOpt f l with
      | none =>
        simp only [mapMOpt, ha, hl]
        refine iff_of_true trivial ?_
        obtain ⟨x, hx, hfx⟩ := ih.mp hl
        exact ⟨x, List.mem_cons_of_mem a hx, hfx⟩
      | some bs =>
        simp only [mapMOpt, ha, hl]
        refine iff_of_false (by simp) ?_
        rintro ⟨x, hx, hfx⟩
        rcases List.mem_cons.mp hx with rfl | hxl
        · rw [ha] at hfx; cases hfx
        · have h2 : mapMOpt f l = none := ih.mpr ⟨x, hxl, hfx⟩
          rw [h2] at hl; cases hl

theorem mapMOpt_length {α β : Type} {f : α → Option β} :
    ∀ {l : List α} {bs : List β}, mapMOpt f l = some bs → bs.length = l.length := by
  intro l
  induction l with
  | nil =>
    intro bs h
    rw [mapMOpt] at h
    cases h
    rfl
  | cons a l ih =>
    intro bs h
    rw [mapMOpt] at h
    cases ha : f a with
    | none => rw [ha] at h; cases h
    | some b =>
      rw [ha] at h
      cases hl : mapMOpt f l with
      | none => rw [hl] at h; cases h
      | some cs =>
        rw [hl] at h
        cases h
        simp [ih hl]

theorem mapMOpt_mem {α β : Type} {f : α → Option β} :
    ∀ {l : List α} {bs : List β}, mapMOpt f l = some bs →
      ∀ b ∈ bs, ∃ a ∈ l, f a = some b := by
  intro l
  induction l with
  | nil =>
    intro bs h
    rw [mapMOpt] at h
    cases h
    intro b hb
    exact absurd hb (List.not_mem_nil b)
  | cons a l ih =>
    intro bs h
    rw [mapMOpt] at h
    cases ha : f a with
    | none => rw [ha] at h; cases h
    | some b0 =>
      rw [ha] at h
      cases hl : mapMOpt f l with
      | none => rw [hl] at h; cases h
      | some cs =>
        rw [hl] at h
        cases h
        intro b hb
        rcases List.mem_cons.mp hb with rfl | hmem
        · exact ⟨a, List.mem_cons_self a l, ha⟩
        · obtain ⟨x, hx, hfx⟩ := ih hl b hmem
          exact ⟨x, List.mem_cons_of_mem a hx, hfx⟩

theorem parseRow_eq_none {t : RawTable} {row : List Cell} :
    parseRow t row = none ↔ pdToDatetime (getCol t "日期" row) = none := by
  rw [parseRow]
  cases h : pdToDatetime (getCol t "日期" row) <;> simp

theorem requiredColumns_all_iff {t : RawTable} :
    (requiredColumns.all fun c => t.columns.contains c) = true ↔
      ∀ c ∈ requiredColumns, c ∈ t.columns := by
  simp [List.all_eq_true, List.contains, List.elem_iff]

/-- C6 (amended): `load_data` fails with the missing-columns message exactly
when one of the four required columns is absent; when they are all present
it fails with the generic reading-failure message exactly when some `日期`
cell does not convert. `金額` (amount) cells are never validated or
converted. On success no row is dropped: the output has one row per input
row. -/
theorem spec_load_data_errors (t : RawTable) :
    (load_data t = .error .missingColumns ↔
      ¬ ∀ c ∈ requiredColumns, c ∈ t.columns)
    ∧ ((∀ c ∈ requiredColumns, c ∈ t.columns) →
        (load_data t = .error .readFailure ↔
          ∃ row ∈ t.rows, pdToDatetime (getCol t "日期" row) = none))
    ∧ (∀ rs, load_data t = .ok rs → rs.length = t.rows.length) := by
  by_cases hall : ∀ c ∈ requiredColumns, c ∈ t.columns
  · have hb : (requiredColumns.all fun c => t.columns.contains c) = true :=
      requiredColumns_all_iff.mpr hall
    refine ⟨?_, fun _ => ?_, ?_⟩
    · rw [load_data, if_pos hb]
      cases hm : mapMOpt (parseRow t) t.rows <;> simpa using hall
    · rw [load_data, if_pos hb]
      cases hm : mapMOpt (parseRow t) t.rows with
      | none =>
        have hex := mapMOpt_eq_none_iff.mp hm
        simp only [parseRow_eq_none] at hex
        simpa using hex
      | some rs =>
        have hnone : ¬ mapMOpt (parseRow t) t.rows = none := by simp [hm]
        rw [mapMOpt_eq_none_iff] at hnone
        simp only [parseRow_eq_none] at hnone
        simpa using hnone
    · intro rs h
      rw [load_data, if_pos hb] at h
      cases hm : mapMOpt (parseRow t) t.rows with
      | none => rw [hm] at h; cases h
      | some rs2 =>
        rw [hm] at h
        cases h
        exact mapMOpt_length hm
  · have hb : ¬ (requiredColumns.all fun c => t.columns.contains c) = true := by
      rw [requiredColumns_all_iff]; exact hall
    rw [load_data, if_neg hb]
    refine ⟨by simp [hall], fun h => absurd h hall, ?_⟩
    intro rs h
    cases h

/-- C6 (counterexample): a table whose `金額` (amount) cell is the plain
text `"abc"` loads successfully, with the unconvertible amount kept as-is;
the loader raises no `ParseError` for amounts. -/
theorem spec_load_data_counterexample :
    load_data tBadAmount
      = .ok [⟨⟨2024, 1, 3⟩, .str "lunch", .str "abc", .str "food", "2024-01", 1, 2024⟩] := by
  decide

/-! Injectivity of the derived `"YYYY-MM"` key: two loaded records carry the
same `年月` string exactly when they agree on `年份` and `月份`. -/

theorem digitChar_toNat_sub : ∀ m, m < 10 → (Nat.digitChar m).toNat - 48 = m := by decide

theorem decimalVal_natDecimalAux :
    ∀ fuel n : ℕ, n ≤ fuel → decimalVal (natDecimalAux fuel n) = n := by
  intro fuel
  induction fuel with
  | zero =>
    intro n hn
    have h0 : n = 0 := Nat.le_zero.mp hn
    subst h0
    rfl
  | succ fuel ih =>
    intro n hn
    cases n with
    | zero => rfl
    | succ n =>
      have hdiv : (n + 1) / 10 ≤ fuel := by
        have := Nat.div_lt_self (Nat.succ_pos n) (by norm_num : 1 < 10)
        omega
      have h1 := ih ((n + 1) / 10) hdiv
      rw [natDecimalAux]
      simp only [decimalVal, List.foldl_append, List.foldl_cons, List.foldl_nil]
      simp only [decimalVal] at h1
      rw [h1, digitChar_toNat_sub _ (Nat.mod_lt _ (by norm_num))]
      omega

theorem decimalVal_natDecimal (n : ℕ) : decimalVal (natDecimal n).data = n := by
  by_cases h : n = 0
  · subst h; decide
  · rw [natDecimal, if_neg h]
    exact decimalVal_natDecimalAux n n le_rfl

theorem natDecimal_inj {a b : ℕ} (h : natDecimal a = natDecimal b) : a = b := by
  have h2 := congrArg (fun s => decimalVal s.data) h
  simpa [decimalVal_natDecimal] using h2

theorem pad2_data_length : ∀ m, m ≤ 12 → 1 ≤ m → (pad2 m).data.length = 2 := by decide

theorem pad2_inj :
    ∀ m1, m1 ≤ 12 → 1 ≤ m1 → ∀ m2, m2 ≤ 12 → 1 ≤ m2 →
      pad2 m1 = pad2 m2 → m1 = m2 := by decide

theorem ymKey_inj {y1 m1 y2 m2 : ℕ}
    (h1a : 1 ≤ m1) (h1b : m1 ≤ 12) (h2a : 1 ≤ m2) (h2b : m2 ≤ 12)
    (h : ymKey y1 m1 = ymKey y2 m2) : y1 = y2 ∧ m1 = m2 := by
  have hd := congrArg String.data h
  simp only [ymKey, String.data_append] at hd
  rw [List.append_assoc, List.append_assoc] at hd
  have hlen : ("-".data ++ (pad2 m1).data).length = ("-".data ++ (pad2 m2).data).length := by
    simp [pad2_data_length m1 h1b h1a, pad2_data_length m2 h2b h2a]
  obtain ⟨hpre, hsuf⟩ := List.append_inj' hd hlen
  refine ⟨natDecimal_inj (String.ext hpre), ?_⟩
  have hpd : (pad2 m1).data = (pad2 m2).data := by
    simpa using hsuf
  exact pad2_inj m1 h1b h1a m2 h2b h2a (String.ext hpd)

theorem parseYMD_valid {s : String} {d : YMD} (h : parseYMD s = some d) :
    1 ≤ d.y ∧ 1 ≤ d.m ∧ d.m ≤ 12 := by
  rw [parseYMD] at h
  split at h
  · split at h
    · split at h
      · cases h
        rename_i hcond
        exact ⟨hcond.1, hcond.2.1, hcond.2.2.1⟩
      · cases h
    · cases h
  · cases h

theorem pdToDatetime_valid {cell : Cell} {d : YMD} (h : pdToDatetime cell = some d) :
    1 ≤ d.y ∧ 1 ≤ d.m ∧ d.m ≤ 12 := by
  cases cell with
  | date d0 =>
    rw [pdToDatetime] at h
    split at h
    · cases h
      rename_i hcond
      exact ⟨hcond.1, hcond.2.1, hcond.2.2.1⟩
    · cases h
  | str s => exact parseYMD_valid h
  | num q => simp [pdToDatetime] at h

theorem load_data_ok_mapM {t : RawTable} {rows : List LoadedRow}
    (h : load_data t = .ok rows) :
    mapMOpt (parseRow t) t.rows = some rows := by
  rw [load_data] at h
  split at h
  · split at h
    · rename_i rs hrs
      cases h
      exact hrs
    · cases h
  · cases h

theorem parseRow_some {t : RawTable} {row : List Cell} {r : LoadedRow}
    (h : parseRow t row = some r) :
    ∃ d, pdToDatetime (getCol t "日期" row) = some d ∧ r.date = d
      ∧ r.yearMonth = ymKey d.y d.m ∧ r.month = d.m ∧ r.year = d.y := by
  rw [parseRow] at h
  split at h
  · cases h
  · rename_i d hd
    cases h
    exact ⟨d, hd, rfl, rfl, rfl, rfl⟩

/-- C10: every record produced by `load_data` has mutually consistent
derived calendar columns: `年份` is the date's year, `月份` its month, and
`年月` the `"YYYY-MM"` key of that same date; moreover two loaded records
share their `年月` key exactly when they agree on both `年份` and `月份`, so
grouping by the key agrees with grouping by (year, month). -/
theorem spec_derived_calendar_consistency (t : RawTable) (rows : List LoadedRow)
    (h : load_data t = .ok rows) :
    ∀ r ∈ rows, r.year = r.date.y ∧ r.month = r.date.m
      ∧ r.yearMonth = ymKey r.date.y r.date.m
      ∧ ∀ r2 ∈ rows,
          (r.yearMonth = r2.yearMonth ↔ (r.year = r2.year ∧ r.month = r2.month)) := by
  have hm := load_data_ok_mapM h
  have hprops : ∀ r ∈ rows, r.year = r.date.y ∧ r.month = r.date.m
      ∧ r.yearMonth = ymKey r.date.y r.date.m ∧ 1 ≤ r.date.m ∧ r.date.m ≤ 12 := by
    intro r hr
    obtain ⟨row, _, hp⟩ := mapMOpt_mem hm r hr
    obtain ⟨d, hd, hdate, hym, hmon, hyear⟩ := parseRow_some hp
    have hv := pdToDatetime_valid hd
    rw [hdate]
    exact ⟨hyear, hmon, hym, hv.2.1, hv.2.2⟩
  intro r hr
  obtain ⟨hy, hmn, hym, hm1, hm2⟩ := hprops r hr
  refine ⟨hy, hmn, hym, ?_⟩
  intro r2 hr2
  obtain ⟨hy2, hmn2, hym2, hm21, hm22⟩ := hprops r2 hr2
  constructor
  · intro he
    rw [hym, hym2] at he
    obtain ⟨hyy, hmm⟩ := ymKey_inj hm1 hm2 hm21 hm22 he
    exact ⟨by rw [hy, hy2, hyy], by rw [hmn, hmn2, hmm]⟩
  · rintro ⟨hyy, hmm⟩
    rw [hym, hym2]
    have hyy2 : r.date.y = r2.date.y := by rw [← hy, ← hy2]; exact hyy
    have hmm2 : r.date.m = r2.date.m := by rw [← hmn, ← hmn2]; exact hmm
    rw [hyy2, hmm2]

/-- C9 (amended): the two chart builders of `visualize_expenses.py` mutate
their input frame: they overwrite the `日期` column with its converted form
and add a derived `年月` column before grouping. The `金額` and `類別`
columns and the row count are untouched, and the chart series is a fresh
value. (The dashboard-side aggregations, modelled as pure functions of a
`List Record`, return fresh results.) -/
theorem spec_frame_mutation (f : VizFrame) :
    (∀ out, create_monthly_trend_chart f = .ok out →
      out.1.amounts = f.amounts ∧ out.1.categories = f.categories
      ∧ out.1.yearMonth.isSome = true ∧ out.1.dates.length = f.dates.length)
    ∧ (∀ out, create_category_monthly_trend_chart f = .ok out →
      out.1.amounts = f.amounts ∧ out.1.categories = f.categories
      ∧ out.1.yearMonth.isSome = true ∧ out.1.dates.length = f.dates.length) := by
  constructor
  · intro out h
    rw [create_monthly_trend_chart] at h
    cases hm : mapMOpt pdToDatetime f.dates with
    | none => rw [hm] at h; cases h
    | some ds =>
      rw [hm] at h
      cases h
      refine ⟨rfl, rfl, rfl, ?_⟩
      simpa using mapMOpt_length hm
  · intro out h
    rw [create_category_monthly_trend_chart] at h
    cases hm : mapMOpt pdToDatetime f.dates with
    | none => rw [hm] at h; cases h
    | some ds =>
      rw [hm] at h
      cases h
      refine ⟨rfl, rfl, rfl, ?_⟩
      simpa using mapMOpt_length hm

/-- C9 (counterexample): called on a frame without a `年月` column,
`create_monthly_trend_chart` hands back a frame that differs from its input:
the dates have been converted in place and a `年月` column has appeared.
The aggregation did NOT leave the input collection's columns unchanged. -/
theorem spec_frame_mutation_counterexample :
    (create_monthly_trend_chart fViz).toOption.map Prod.fst
      = some ⟨[.date ⟨2024, 1, 1⟩], [150], ["food"], some ["2024-01"]⟩
    ∧ (⟨[.date ⟨2024, 1, 1⟩], [150], ["food"], some ["2024-01"]⟩ : VizFrame) ≠ fViz := by
  decide

/-! Witnesses: each claim-level theorem applied at a concrete ledger. -/

theorem spec_applyFilter_semantics_witness :
    (rFood ∈ applyFilter [rFood] ["food"] ["2024-01"] ↔
      rFood ∈ [rFood] ∧ (["food"] = ([] : List String)
        ∨ ["2024-01"] = ([] : List String)
        ∨ (rFood.category ∈ ["food"] ∧ rFood.yearMonth ∈ ["2024-01"])))
    ∧ (applyFilter [rFood] ["food"] ["2024-01"]).Sublist [rFood] :=
  spec_applyFilter_semantics [rFood] ["food"] ["2024-01"] rFood

theorem spec_conservation_of_total_witness :
    ((create_category_pie_chart [rFood, rTransit, rMovie]).map Prod.snd).sum
      = ([rFood, rTransit, rMovie].map Record.amount).sum :=
  spec_conservation_of_total [rFood, rTransit, rMovie]

theorem spec_category_summary_order_witness :
    List.Pairwise
      (fun a b : CategorySummary =>
        b.total < a.total ∨ (b.total = a.total ∧ strLt b.category a.category = true))
      (analyzeCategorySummary [rTieA, rTieB]) :=
  spec_category_summary_order [rTieA, rTieB]

theorem spec_pivot_cross_consistency_witness :
    ((pivotMonthCategory [rFood, rMovie]).map Prod.fst
        = (groupbySumByMonth [rFood, rMovie]).map Prod.fst)
    ∧ (∀ mr ∈ pivotMonthCategory [rFood, rMovie],
        (mr.2.map Prod.snd).sum = monthTotal [rFood, rMovie] mr.1)
    ∧ (∀ p ∈ groupbySumByMonth [rFood, rMovie], p.2 = monthTotal [rFood, rMovie] p.1)
    ∧ (∀ cp ∈ groupbySumByCategory [rFood, rMovie],
        ((pivotMonthCategory [rFood, rMovie]).map fun mr =>
          ((mr.2.filter fun e => e.1 == cp.1).map Prod.snd).sum).sum = cp.2) :=
  spec_pivot_cross_consistency [rFood, rMovie]

theorem spec_leadingCategory_witness :
    leadingCategory [] = .error .indexError
    ∧ leadingCategory [⟨"food", 150, 1, 150⟩] = .ok ⟨"food", 150, 1, 150⟩ :=
  spec_leadingCategory ⟨"food", 150, 1, 150⟩ []

theorem spec_load_data_errors_witness :
    (load_data tBadDate = .error .missingColumns ↔
      ¬ ∀ c ∈ requiredColumns, c ∈ tBadDate.columns)
    ∧ ((∀ c ∈ requiredColumns, c ∈ tBadDate.columns) →
        (load_data tBadDate = .error .readFailure ↔
          ∃ row ∈ tBadDate.rows, pdToDatetime (getCol tBadDate "日期" row) = none))
    ∧ (∀ rs, load_data tBadDate = .ok rs → rs.length = tBadDate.rows.length) :=
  spec_load_data_errors tBadDate

theorem spec_topN_deterministic_witness :
    (create_top_expenses_table [rFood, rTransit, rMovie] 2).length
        = min 2 [rFood, rTransit, rMovie].length
    ∧ List.Pairwise (fun a b : Record => b.amount ≤ a.amount)
        (create_top_expenses_table [rFood, rTransit, rMovie] 2)
    ∧ (create_top_expenses_table [rFood, rTransit, rMovie] 2).Subperm
        [rFood, rTransit, rMovie]
    ∧ List.Pairwise
        (fun a b : ℕ × Record =>
          b.2.amount < a.2.amount ∨ (a.2.amount = b.2.amount ∧ a.1 < b.1))
        (topNIdx [rFood, rTransit, rMovie] 2)
    ∧ ∀ p ∈ topNIdx [rFood, rTransit, rMovie] 2,
        [rFood, rTransit, rMovie].get? p.1 = some p.2 :=
  spec_topN_deterministic [rFood, rTransit, rMovie] 2

theorem spec_rounding_placement_witness :
    ∃ s rest, analyzeCategorySummary [rFood] = s :: rest
      ∧ analyzeMaxAmount [rFood] = .ok s.total
      ∧ s.total = round2 (catTotal [rFood] s.category)
      ∧ ∀ p ∈ create_category_pie_chart [rFood], p.2 = catTotal [rFood] p.1 :=
  spec_rounding_placement [rFood] (by
    have hl : (analyzeCategorySummary [rFood]).length = 1 := by
      rw [analyzeCategorySummary,
        (sortValuesDesc_perm CategorySummary.total _).length_eq, List.length_map]
      rw [show uniqueKeysSorted ([rFood].map Record.category) = ["food"] from by decide]
      rfl
    intro hnil
    rw [hnil] at hl
    simp at hl)

theorem spec_frame_mutation_witness :
    (∀ out, create_monthly_trend_chart fViz = .ok out →
      out.1.amounts = fViz.amounts ∧ out.1.categories = fViz.categories
      ∧ out.1.yearMonth.isSome = true ∧ out.1.dates.length = fViz.dates.length)
    ∧ (∀ out, create_category_monthly_trend_chart fViz = .ok out →
      out.1.amounts = fViz.amounts ∧ out.1.categories = fViz.categories
      ∧ out.1.yearMonth.isSome = true ∧ out.1.dates.length = fViz.dates.length) :=
  spec_frame_mutation fViz

theorem spec_derived_calendar_consistency_witness :
    rowJan.year = rowJan.date.y ∧ rowJan.month = rowJan.date.m
    ∧ rowJan.yearMonth = ymKey rowJan.date.y rowJan.date.m
    ∧ (rowJan.yearMonth = rowFeb.yearMonth ↔
        (rowJan.year = rowFeb.year ∧ rowJan.month = rowFeb.month)) := by
  have h := spec_derived_calendar_consistency tGood [rowJan, rowFeb] (by decide)
    rowJan (List.mem_cons_self rowJan [rowFeb])
  exact ⟨h.1, h.2.1, h.2.2.1,
    h.2.2.2 rowFeb (List.mem_cons_of_mem rowJan (List.mem_cons_self rowFeb []))⟩
